import Mathlib

/-!
Verification of the spreadsheet resolver/locator/planner/gateway core of the
SEO-Intel-Engine repository (the sheets service module).  The JavaScript
source is shallowly embedded: each network-facing function is modelled as the
pure function of its fetched data that the source computes, and the string
helpers are translated operation by operation.
-/

namespace SeoIntel

/-- The whitespace class used by the source's regexes and `trim` calls
(the ASCII part of JavaScript's pattern for whitespace). -/
def wsChar (c : Char) : Bool :=
  c = ' ' || c = '\t' || c = '\n' || c = '\r' || c = Char.ofNat 11 || c = Char.ofNat 12

/-- Trim whitespace from both ends of a character list, as JS `trim()`. -/
def trimWs (l : List Char) : List Char :=
  ((l.dropWhile wsChar).reverse.dropWhile wsChar).reverse

/-- JS `String.prototype.trim`. -/
def jsTrim (s : String) : String := String.mk (trimWs s.data)

/-- JS `String.prototype.toLowerCase` (ASCII range, as used on the
ASCII header names and key names of the source). -/
def lowerStr (s : String) : String := String.mk (s.data.map Char.toLower)

/-- Helper to convert 0-based index to column letter: digit list of the
source's loop `while (index >= 0) { temp = index % 26; letter = chr(temp+65)
+ letter; index = floor(index/26) - 1 }`, written with explicit fuel so the
recursion is structural (the loop value strictly decreases, so `n + 1` steps
always suffice). -/
def colDigitsAux : Nat → Nat → List Nat
  | 0, _ => []
  | fuel + 1, n =>
    if n < 26 then [n % 26]
    else colDigitsAux fuel (n / 26 - 1) ++ [n % 26]

/-- The digit list (most significant first, each digit < 26) produced by the
source's column-letter loop for a 0-based column index. -/
def colDigits (n : Nat) : List Nat := colDigitsAux (n + 1) n

/-- `getColumnLetter` from the source: 0-based column index to the
spreadsheet letter scheme A..Z, AA..ZZ, ... . -/
def getColumnLetter (index : Nat) : String :=
  String.mk ((colDigits index).map (fun d => Char.ofNat (d + 65)))

/-- Value of a column-letter digit list read least-significant-digit first,
shifted by one (the bijective base-26 reading): the inverse used to show the
conversion injective. -/
def digitsValRev : List Nat → Nat
  | [] => 0
  | d :: rest => digitsValRev rest * 26 + d + 1

theorem colDigitsAux_fuel_irrel :
    ∀ f₁ f₂ n, n < f₁ → n < f₂ → colDigitsAux f₁ n = colDigitsAux f₂ n := by
  intro f₁
  induction f₁ with
  | zero => intro f₂ n h; omega
  | succ f ih =>
    intro f₂ n h₁ h₂
    cases f₂ with
    | zero => omega
    | succ f' =>
      show colDigitsAux (f + 1) n = colDigitsAux (f' + 1) n
      unfold colDigitsAux
      by_cases hlt : n < 26
      · simp [hlt]
      · have hn : 26 ≤ n := by omega
        have hdec : n / 26 - 1 < n := by
          have : n / 26 < n := Nat.div_lt_self (by omega) (by omega)
          omega
        simp only [hlt, if_false]
        rw [ih f' (n / 26 - 1) (by omega) (by omega)]

theorem colDigits_step {n : Nat} (h : 26 ≤ n) :
    colDigits n = colDigits (n / 26 - 1) ++ [n % 26] := by
  have hdec : n / 26 - 1 < n := by
    have : n / 26 < n := Nat.div_lt_self (by omega) (by omega)
    omega
  show colDigitsAux (n + 1) n = _
  unfold colDigitsAux
  simp only [Nat.lt_irrefl, show ¬ n < 26 by omega, if_false]
  rw [colDigitsAux_fuel_irrel n (n / 26 - 1 + 1) (n / 26 - 1) hdec (by omega)]
  rfl

theorem colDigits_base {n : Nat} (h : n < 26) : colDigits n = [n % 26] := by
  show colDigitsAux (n + 1) n = _
  unfold colDigitsAux
  simp [h]

/-- The shifted value of the reversed digit list recovers the index plus one:
the column-letter encoding is a section of the bijective base-26 reading. -/
theorem digitsValRev_colDigits : ∀ n : Nat, digitsValRev (colDigits n).reverse = n + 1 := by
  intro n
  induction n using Nat.strong_induction_on with
  | _ n ih =>
    by_cases h : n < 26
    · rw [colDigits_base h]
      simp [digitsValRev, Nat.mod_eq_of_lt h]
    · have h26 : 26 ≤ n := by omega
      have hdec : n / 26 - 1 < n := by
        have : n / 26 < n := Nat.div_lt_self (by omega) (by omega)
        omega
      rw [colDigits_step h26]
      rw [List.reverse_append]
      simp only [List.reverse_cons, List.reverse_nil, List.nil_append, List.singleton_append]
      rw [show digitsValRev (n % 26 :: (colDigits (n / 26 - 1)).reverse)
            = digitsValRev (colDigits (n / 26 - 1)).reverse * 26 + n % 26 + 1 from rfl]
      rw [ih (n / 26 - 1) hdec]
      have h1 : 1 ≤ n / 26 := (Nat.one_le_div_iff (by omega)).mpr h26
      have : (n / 26 - 1 + 1) = n / 26 := by omega
      rw [this]
      have := Nat.div_add_mod n 26
      omega

theorem colDigits_injective : Function.Injective colDigits := by
  intro a b h
  have := congrArg (fun l => digitsValRev l.reverse) h
  simp only [digitsValRev_colDigits] at this
  omega

theorem colDigits_lt : ∀ n : Nat, ∀ d ∈ colDigits n, d < 26 := by
  intro n
  induction n using Nat.strong_induction_on with
  | _ n ih =>
    by_cases h : n < 26
    · rw [colDigits_base h]
      intro d hd
      simp at hd
      subst hd
      exact Nat.mod_lt _ (by omega)
    · have h26 : 26 ≤ n := by omega
      have hdec : n / 26 - 1 < n := by
        have : n / 26 < n := Nat.div_lt_self (by omega) (by omega)
        omega
      rw [colDigits_step h26]
      intro d hd
      rcases List.mem_append.mp hd with h1 | h2
      · exact ih _ hdec d h1
      · simp at h2
        subst h2
        exact Nat.mod_lt _ (by omega)

theorem char_ofNat_toNat_digit {d : Nat} (h : d < 26) :
    (Char.ofNat (d + 65)).toNat = d + 65 := by
  interval_cases d <;> decide

theorem map_digitChar_injective :
    ∀ l₁ l₂ : List Nat, (∀ d ∈ l₁, d < 26) → (∀ d ∈ l₂, d < 26) →
      l₁.map (fun d => Char.ofNat (d + 65)) = l₂.map (fun d => Char.ofNat (d + 65)) →
      l₁ = l₂ := by
  intro l₁
  induction l₁ with
  | nil =>
    intro l₂ _ _ h
    cases l₂ with
    | nil => rfl
    | cons b bs => simp at h
  | cons a as ih =>
    intro l₂ h₁ h₂ h
    cases l₂ with
    | nil => simp at h
    | cons b bs =>
      simp only [List.map_cons, List.cons.injEq] at h
      have ha : a < 26 := h₁ a (by simp)
      have hb : b < 26 := h₂ b (by simp)
      have hab : a = b := by
        have := congrArg Char.toNat h.1
        rw [char_ofNat_toNat_digit ha, char_ofNat_toNat_digit hb] at this
        omega
      have : as = bs := ih bs (fun d hd => h₁ d (by simp [hd])) (fun d hd => h₂ d (by simp [hd])) h.2
      rw [hab, this]

/-- C6: the zero-based column index → column letter conversion is injective
over all natural-number indices, and maps 0 to "A", 25 to "Z", 26 to "AA" and
701 to "ZZ". -/
theorem getColumnLetter_injective_and_examples :
    Function.Injective getColumnLetter ∧
    getColumnLetter 0 = "A" ∧ getColumnLetter 25 = "Z" ∧
    getColumnLetter 26 = "AA" ∧ getColumnLetter 701 = "ZZ" := by
  refine ⟨?_, by decide, by decide, by decide, by decide⟩
  intro a b h
  unfold getColumnLetter at h
  have hdata : (colDigits a).map (fun d => Char.ofNat (d + 65))
      = (colDigits b).map (fun d => Char.ofNat (d + 65)) := by
    have := congrArg String.data h
    simpa using this
  exact colDigits_injective
    (map_digitChar_injective _ _ (colDigits_lt a) (colDigits_lt b) hdata)

/-- Closed instance discharging the hypothesis of the injectivity part of C6
at a concrete input. -/
theorem getColumnLetter_injective_witness :
    getColumnLetter 702 = getColumnLetter 702 ∧ (702 : Nat) = 702 :=
  ⟨rfl, getColumnLetter_injective_and_examples.1
    (show getColumnLetter 702 = getColumnLetter 702 from rfl)⟩

/-- Case-insensitive (ASCII) prefix removal: `some rest` when `l` begins
with `pat` up to `Char.toLower`, `none` otherwise.  Models the anchored
case-insensitive regex prefixes of `cleanToken`. -/
def dropPrefixCI : List Char → List Char → Option (List Char)
  | [], l => some l
  | _ :: _, [] => none
  | p :: ps, c :: cs => if c.toLower = p.toLower then dropPrefixCI ps cs else none

/-- One anchored replacement `.replace(/^pat\s*/i, '')`: drop the pattern and
the following whitespace run when the pattern is a prefix, else leave the
input unchanged. -/
def stripAnchoredCI (pat : List Char) (l : List Char) : List Char :=
  match dropPrefixCI pat l with
  | some rest => rest.dropWhile wsChar
  | none => l

/-- A quote character (double or single), for `.replace(/["']/g, '')`. -/
def isQuoteChar (c : Char) : Bool := c = '"' || c = Char.ofNat 39

/-- The non-JSON cleanup sequence of `cleanToken`: remove all quotes, strip
an anchored `Authorization:` prefix, strip an anchored `Bearer` prefix,
remove all whitespace, trim. -/
def plainClean (token : String) : String :=
  let l0 := token.data.filter (fun c => !(isQuoteChar c))
  let l1 := stripAnchoredCI "authorization:".data l0
  let l2 := stripAnchoredCI "bearer".data l1
  let l3 := l2.filter (fun c => !(wsChar c))
  String.mk (trimWs l3)

/-- Accumulator-based scan of a JSON string value: characters up to the next
double quote. -/
def scanStringVal : List Char → List Char → Option String
  | [], _ => none
  | c :: rest, acc => if c = '"' then some (String.mk acc.reverse) else scanStringVal rest (c :: acc)

/-- After the `"access_token"` key: expect `: "value"` with optional
whitespace. -/
def afterAccessTokenKey (l : List Char) : Option String :=
  match l.dropWhile wsChar with
  | ':' :: r =>
    match r.dropWhile wsChar with
    | '"' :: v => scanStringVal v []
    | _ => none
  | _ => none

/-- Modelled from the spec: `JSON.parse` is a host builtin absent from the
source; the spec says "if the supplied credential is JSON containing an
`access_token` field, extract that value instead".  Modelled as a scan for a
`"access_token"` key followed by a colon and a double-quoted string value. -/
def findAccessToken : List Char → Option String
  | [] => none
  | c :: rest =>
    if ('"' :: "access_token".data ++ ['"']).isPrefixOf (c :: rest) then
      afterAccessTokenKey ((c :: rest).drop ("access_token".data.length + 2))
    else findAccessToken rest

/-- The JSON-paste branch of `cleanToken`: `JSON.parse(token).access_token`
when present and truthy (JS treats the empty string as falsy). -/
def jsonAccessToken (s : String) : Option String :=
  match findAccessToken s.data with
  | some v => if v = "" then none else some v
  | none => none

/-- JS `startsWith` with a one-character argument: the first character of
the string equals `c`. -/
def headIs (s : String) (c : Char) : Bool :=
  match s.data with
  | [] => false
  | a :: _ => a = c

/-- `cleanToken` from the source: JSON-paste extraction when the trimmed
token starts with a brace, otherwise the quote/prefix/whitespace cleanup. -/
def cleanToken (token : String) : String :=
  if token = "" then ""
  else if headIs (jsTrim token) (Char.ofNat 123) then
    match jsonAccessToken token with
    | some t => t
    | none => plainClean token
  else plainClean token

/-- C7, counterexample: credential normalization is not idempotent.  The
anchored Bearer-prefix strip runs before whitespace removal, so a leading
space defeats it: one application of `cleanToken` to `' Bearer  ya29.abc '`
yields `"Bearerya29.abc"` (not the `"ya29.abc"` the claim states), and a
second application yields `"ya29.abc"`, so applying the normalization twice
differs from applying it once. -/
theorem cleanToken_not_idempotent :
    cleanToken " Bearer  ya29.abc " = "Bearerya29.abc" ∧
    cleanToken (cleanToken " Bearer  ya29.abc ") = "ya29.abc" ∧
    cleanToken (cleanToken " Bearer  ya29.abc ") ≠ cleanToken " Bearer  ya29.abc " := by
  refine ⟨by decide, ?_, ?_⟩ <;> decide

/-- `cleanToken`'s cleanup normalizes case-insensitive prefixes; this tests
whether a string begins with the pattern (used to state when a second
normalization pass can strip further). -/
def hasPrefixCI (pat : String) (s : String) : Bool :=
  (dropPrefixCI pat.data s.data).isSome

theorem mem_of_mem_dropPrefixCI :
    ∀ (pat l rest : List Char), dropPrefixCI pat l = some rest → ∀ c ∈ rest, c ∈ l := by
  intro pat
  induction pat with
  | nil =>
    intro l rest h c hc
    simp only [dropPrefixCI, Option.some.injEq] at h
    exact h ▸ hc
  | cons p ps ih =>
    intro l rest h c hc
    cases l with
    | nil => simp [dropPrefixCI] at h
    | cons a as =>
      simp only [dropPrefixCI] at h
      by_cases hcase : a.toLower = p.toLower
      · rw [if_pos hcase] at h
        exact List.mem_cons_of_mem a (ih as rest h c hc)
      · rw [if_neg hcase] at h
        exact absurd h (by simp)

theorem mem_of_mem_stripAnchoredCI (pat l : List Char) :
    ∀ c ∈ stripAnchoredCI pat l, c ∈ l := by
  intro c hc
  unfold stripAnchoredCI at hc
  cases hdp : dropPrefixCI pat l with
  | none => rw [hdp] at hc; exact hc
  | some rest =>
    rw [hdp] at hc
    exact mem_of_mem_dropPrefixCI pat l rest hdp c ((List.dropWhile_sublist _).subset hc)

theorem mem_of_mem_trimWs (l : List Char) : ∀ c ∈ trimWs l, c ∈ l := by
  intro c hc
  unfold trimWs at hc
  rw [List.mem_reverse] at hc
  have h1 := (List.dropWhile_sublist (p := wsChar)).subset hc
  rw [List.mem_reverse] at h1
  exact (List.dropWhile_sublist _).subset h1

theorem dropWhile_of_all_false {p : Char → Bool} {l : List Char}
    (h : ∀ c ∈ l, p c = false) : l.dropWhile p = l := by
  cases l with
  | nil => rfl
  | cons a as => simp [List.dropWhile_cons, h a (by simp)]

theorem trimWs_of_no_ws {l : List Char} (h : ∀ c ∈ l, wsChar c = false) :
    trimWs l = l := by
  unfold trimWs
  rw [dropWhile_of_all_false h,
      dropWhile_of_all_false (fun c hc => h c (List.mem_reverse.mp hc)),
      List.reverse_reverse]

theorem plainClean_no_ws (s : String) : ∀ c ∈ (plainClean s).data, wsChar c = false := by
  intro c hc
  unfold plainClean at hc
  simp only at hc
  have h1 := mem_of_mem_trimWs _ c hc
  have h2 := (List.mem_filter.mp h1).2
  simpa using h2

theorem plainClean_no_quote (s : String) : ∀ c ∈ (plainClean s).data, isQuoteChar c = false := by
  intro c hc
  unfold plainClean at hc
  simp only at hc
  have h1 := mem_of_mem_trimWs _ c hc
  have h2 := (List.mem_filter.mp h1).1
  have h3 := mem_of_mem_stripAnchoredCI _ _ c h2
  have h4 := mem_of_mem_stripAnchoredCI _ _ c h3
  have h5 := (List.mem_filter.mp h4).2
  simpa using h5

theorem plainClean_fixed (r : String)
    (hq : ∀ c ∈ r.data, isQuoteChar c = false)
    (hw : ∀ c ∈ r.data, wsChar c = false)
    (ha : dropPrefixCI "authorization:".data r.data = none)
    (hb : dropPrefixCI "bearer".data r.data = none) :
    plainClean r = r := by
  unfold plainClean
  simp only
  have e1 : List.filter (fun c => !isQuoteChar c) r.data = r.data :=
    List.filter_eq_self.mpr (fun c hc => by rw [hq c hc]; rfl)
  rw [e1]
  have e2 : stripAnchoredCI "authorization:".data r.data = r.data := by
    unfold stripAnchoredCI
    rw [ha]
  rw [e2]
  have e3 : stripAnchoredCI "bearer".data r.data = r.data := by
    unfold stripAnchoredCI
    rw [hb]
  rw [e3]
  have e4 : List.filter (fun c => !wsChar c) r.data = r.data :=
    List.filter_eq_self.mpr (fun c hc => by rw [hw c hc]; rfl)
  rw [e4]
  rw [trimWs_of_no_ws hw]

/-- C7, amended: normalization is idempotent on every input whose trimmed
form does not start with a brace and whose normalized form does not itself
begin with a (case-insensitive) `Bearer` or `Authorization:` prefix or a
brace; on such inputs applying `cleanToken` twice equals applying it once.
(It is not idempotent in general: whitespace before the `Bearer` prefix
defeats the anchored prefix strip, which runs before whitespace removal.) -/
theorem cleanToken_idempotent_amended (s : String)
    (h1 : headIs (jsTrim s) (Char.ofNat 123) = false)
    (h2 : hasPrefixCI "bearer" (cleanToken s) = false)
    (h3 : hasPrefixCI "authorization:" (cleanToken s) = false)
    (h4 : headIs (cleanToken s) (Char.ofNat 123) = false) :
    cleanToken (cleanToken s) = cleanToken s := by
  by_cases hs : s = ""
  · subst hs
    rfl
  · have hcs : cleanToken s = plainClean s := by
      unfold cleanToken
      rw [if_neg hs, if_neg (by rw [h1]; simp)]
    rw [hcs] at h2 h3 h4 ⊢
    by_cases hr : plainClean s = ""
    · rw [hr]
      rfl
    · have hw := plainClean_no_ws s
      have hq := plainClean_no_quote s
      have hb : dropPrefixCI "bearer".data (plainClean s).data = none := by
        unfold hasPrefixCI at h2
        cases hdp : dropPrefixCI "bearer".data (plainClean s).data with
        | none => rfl
        | some rest => rw [hdp] at h2; simp at h2
      have ha : dropPrefixCI "authorization:".data (plainClean s).data = none := by
        unfold hasPrefixCI at h3
        cases hdp : dropPrefixCI "authorization:".data (plainClean s).data with
        | none => rfl
        | some rest => rw [hdp] at h3; simp at h3
      have htrim : jsTrim (plainClean s) = plainClean s := by
        unfold jsTrim
        rw [trimWs_of_no_ws hw]
      unfold cleanToken
      rw [if_neg hr, htrim, if_neg (by rw [h4]; simp)]
      exact plainClean_fixed _ hq hw ha hb

/-- Closed instance of the amended C7 at the concrete credential the spec
uses (without the leading whitespace that defeats the prefix strip):
normalizing `'Bearer  ya29.abc'` yields `"ya29.abc"` and normalizing again
yields the same value. -/
theorem cleanToken_idempotent_amended_witness :
    cleanToken "Bearer  ya29.abc" = "ya29.abc" ∧
    cleanToken (cleanToken "Bearer  ya29.abc") = cleanToken "Bearer  ya29.abc" :=
  ⟨by decide, cleanToken_idempotent_amended "Bearer  ya29.abc"
    (by decide) (by decide) (by decide) (by decide)⟩

/-- The character class `[a-zA-Z0-9-_]` of the spreadsheet-id regex. -/
def isIdChar (c : Char) : Bool := c.isAlpha || c.isDigit || c = '-' || c = '_'

/-- Whether the regex `/\/d\/([a-zA-Z0-9-_]+)/` matches at the start of the
list: a literal `/d/` followed by at least one id character. -/
def dIdHeadMatch (l : List Char) : Bool :=
  decide (l.take 3 = ['/', 'd', '/']) && ((l.drop 3).head?.elim false isIdChar)

/-- The capture group of a head match: the maximal id-character run after
the literal `/d/`. -/
def dIdCapture (l : List Char) : List Char :=
  (l.drop 3).takeWhile isIdChar

/-- First-match scan of `/\/d\/([a-zA-Z0-9-_]+)/` over the input, trying
each start position left to right as the regex engine does. -/
def scanDId : List Char → Option (List Char)
  | [] => none
  | c :: rest => if dIdHeadMatch (c :: rest) then some (dIdCapture (c :: rest)) else scanDId rest

/-- `extractSpreadsheetId` from the source: the regex capture when the
pattern matches, otherwise the trimmed input (empty input stays empty). -/
def extractSpreadsheetId (input : String) : String :=
  if input = "" then ""
  else
    match scanDId input.data with
    | some cap => String.mk cap
    | none => jsTrim input

/-- C8, counterexample: the claim's "otherwise" clause fails because the
regex does not require a closing slash.  The input `"/d/abc"` contains no
substring of the form `/d/<ID>/` for any id string (it has only two slashes
while any such substring has at least three), so the claim says the
extracted id is the trimmed input `"/d/abc"`; the code extracts `"abc"`. -/
theorem extractSpreadsheetId_counterexample :
    (¬ ∃ id : String, id ≠ "" ∧ id.data.all isIdChar = true ∧
        ("/d/" ++ id ++ "/").data <:+: ("/d/abc" : String).data) ∧
    extractSpreadsheetId "/d/abc" = "abc" ∧
    ("abc" : String) ≠ jsTrim "/d/abc" := by
  refine ⟨?_, by decide, by decide⟩
  rintro ⟨id, -, -, hinf⟩
  have hsub := hinf.sublist
  have hcount := hsub.count_le '/'
  rw [show ("/d/" ++ id ++ "/").data = "/d/".data ++ id.data ++ "/".data by
        simp [String.data_append]] at hcount
  simp only [List.count_append] at hcount
  have h1 : List.count '/' (['/', 'd', '/'] : List Char) = 2 := by decide
  have h2 : List.count '/' (['/'] : List Char) = 1 := by decide
  have h3 : List.count '/' (['/', 'd', '/', 'a', 'b', 'c'] : List Char) = 2 := by decide
  omega

theorem scanDId_some_spec :
    ∀ (l cap : List Char), scanDId l = some cap →
      cap ≠ [] ∧ cap.all isIdChar = true ∧
      ∃ pre suf, l = pre ++ ('/' :: 'd' :: '/' :: []) ++ cap ++ suf ∧
        (∀ c, suf.head? = some c → isIdChar c = false) := by
  intro l
  induction l with
  | nil => intro cap h; simp [scanDId] at h
  | cons c rest ih =>
    intro cap h
    simp only [scanDId] at h
    by_cases hm : dIdHeadMatch (c :: rest) = true
    · rw [if_pos hm] at h
      have hcap : dIdCapture (c :: rest) = cap := by
        injection h
      unfold dIdHeadMatch at hm
      rw [Bool.and_eq_true] at hm
      have htake : (c :: rest).take 3 = ['/', 'd', '/'] := of_decide_eq_true hm.1
      obtain ⟨d, tail, hdrop, hd⟩ :
          ∃ d tail, (c :: rest).drop 3 = d :: tail ∧ isIdChar d = true := by
        cases hdr : (c :: rest).drop 3 with
        | nil => rw [hdr] at hm; simp at hm
        | cons d tail =>
          rw [hdr] at hm
          exact ⟨d, tail, rfl, by simpa using hm.2⟩
      unfold dIdCapture at hcap
      rw [hdrop] at hcap
      simp only [List.takeWhile_cons, hd, if_true] at hcap
      refine ⟨by rw [← hcap]; simp, ?_, ?_⟩
      · rw [← hcap]
        simp only [List.all_cons, hd, Bool.true_and]
        exact List.all_takeWhile
      · refine ⟨[], (tail.dropWhile isIdChar), ?_, ?_⟩
        · have hsplit : c :: rest = (c :: rest).take 3 ++ (c :: rest).drop 3 :=
            (List.take_append_drop 3 (c :: rest)).symm
          rw [hsplit, htake, hdrop, ← hcap]
          simp [List.takeWhile_append_dropWhile]
        · intro a ha
          have := List.head?_dropWhile_not isIdChar tail
          rw [ha] at this
          simpa using this
    · rw [if_neg hm] at h
      obtain ⟨hne, hall, pre, suf, hdec, hsuf⟩ := ih cap h
      exact ⟨hne, hall, c :: pre, suf, by rw [hdec]; rfl, hsuf⟩

theorem scanDId_none_spec :
    ∀ l : List Char, scanDId l = none →
      ¬ ∃ pre d suf, l = pre ++ ('/' :: 'd' :: '/' :: []) ++ d :: suf ∧ isIdChar d = true := by
  intro l
  induction l with
  | nil =>
    intro _
    rintro ⟨pre, d, suf, hdec, -⟩
    simp at hdec
  | cons c rest ih =>
    intro h
    simp only [scanDId] at h
    by_cases hm : dIdHeadMatch (c :: rest) = true
    · rw [if_pos hm] at h
      simp at h
    · rw [if_neg hm] at h
      rintro ⟨pre, d, suf, hdec, hd⟩
      cases pre with
      | nil =>
        simp only [List.nil_append, List.cons_append] at hdec
        apply hm
        rw [show c :: rest = '/' :: 'd' :: '/' :: d :: suf from by
              simpa using hdec]
        unfold dIdHeadMatch
        simp [hd]
      | cons p ps =>
        simp only [List.cons_append, List.cons.injEq] at hdec
        exact ih h ⟨ps, d, suf, hdec.2, hd⟩

/-- C8, amended: for every input in which `/d/` is immediately followed by
at least one character of `[a-zA-Z0-9-_]`, the extracted id is the maximal
nonempty id-character run following such an occurrence (a closing slash is
not required); for every other input the extracted id is the trimmed
input. -/
theorem extractSpreadsheetId_amended (input : String) :
    (∀ cap, scanDId input.data = some cap →
      cap ≠ [] ∧ cap.all isIdChar = true ∧
      extractSpreadsheetId input = String.mk cap ∧
      ∃ pre suf, input.data = pre ++ ('/' :: 'd' :: '/' :: []) ++ cap ++ suf ∧
        (∀ c, suf.head? = some c → isIdChar c = false)) ∧
    (scanDId input.data = none →
      extractSpreadsheetId input = jsTrim input ∧
      ¬ ∃ pre d suf, input.data = pre ++ ('/' :: 'd' :: '/' :: []) ++ d :: suf ∧
          isIdChar d = true) := by
  constructor
  · intro cap h
    obtain ⟨hne, hall, pre, suf, hdec, hsuf⟩ := scanDId_some_spec input.data cap h
    refine ⟨hne, hall, ?_, pre, suf, hdec, hsuf⟩
    unfold extractSpreadsheetId
    have hinput : input ≠ "" := by
      intro he
      subst he
      simp [scanDId] at h
    rw [if_neg hinput, h]
  · intro h
    refine ⟨?_, scanDId_none_spec input.data h⟩
    unfold extractSpreadsheetId
    by_cases hinput : input = ""
    · subst hinput
      rfl
    · rw [if_neg hinput, h]

/-- Closed instance of the amended C8: a URL-shaped input with a dot ending
the id run extracts the run after `/d/`, discharging the hypothesis of the
matching branch at a concrete input. -/
theorem extractSpreadsheetId_amended_witness :
    scanDId ("x/d/AB-c_1.z" : String).data = some ("AB-c_1" : String).data ∧
    extractSpreadsheetId "x/d/AB-c_1.z" = String.mk ("AB-c_1" : String).data :=
  ⟨by decide,
   ((extractSpreadsheetId_amended "x/d/AB-c_1.z").1 ("AB-c_1" : String).data
      (by decide)).2.2.1⟩

/-- `t` equals `a ++ b` with at most one whitespace character between,
modelling a regex alternative of the form `a\s?b` applied to a whole
string. -/
def eqOptWs (a b t : List Char) : Bool :=
  decide (t = a ++ b) ||
  (a.isPrefixOf t &&
    (match t.drop a.length with
     | c :: rest => wsChar c && decide (rest = b)
     | [] => false))

/-- The normalized (trimmed, ASCII-lowercased) header text the source's
case-insensitive anchored regexes effectively test. -/
def normHeader (h : String) : List Char :=
  (lowerStr (jsTrim h)).data

/-- The topic-column matcher of `fetchTopicAndUrl`:
`/^(topic|target\s?topic|keyword|primary\s?keyword|search\s?query|query|content\s?subject|main\s?keyword)$/i`
on the trimmed header. -/
def isTopicHeader (h : String) : Bool :=
  let t := normHeader h
  decide (t = "topic".data) || eqOptWs "target".data "topic".data t ||
  decide (t = "keyword".data) || eqOptWs "primary".data "keyword".data t ||
  eqOptWs "search".data "query".data t || decide (t = "query".data) ||
  eqOptWs "content".data "subject".data t || eqOptWs "main".data "keyword".data t

/-- The url-column matcher of `fetchTopicAndUrl`:
`/^(sources\/external\s?url|external\s?url|url|link|website|page\s?url|source\s?url|source|current\s?url)$/i`. -/
def isUrlHeader (h : String) : Bool :=
  let t := normHeader h
  eqOptWs "sources/external".data "url".data t ||
  eqOptWs "external".data "url".data t ||
  decide (t = "url".data) || decide (t = "link".data) ||
  decide (t = "website".data) || eqOptWs "page".data "url".data t ||
  eqOptWs "source".data "url".data t || decide (t = "source".data) ||
  eqOptWs "current".data "url".data t

/-- The title-column matcher of `fetchTopicAndUrl`:
`/^(title|seo\s?title|page\s?title|meta\s?title|headline|generated\s?title|metadata)$/i`. -/
def isTitleHeader (h : String) : Bool :=
  let t := normHeader h
  decide (t = "title".data) || eqOptWs "seo".data "title".data t ||
  eqOptWs "page".data "title".data t || eqOptWs "meta".data "title".data t ||
  decide (t = "headline".data) || eqOptWs "generated".data "title".data t ||
  decide (t = "metadata".data)

/-- JS `Array.prototype.findIndex`, as an `Option`-valued index. -/
def firstIdxWhere (p : α → Bool) : List α → Option Nat
  | [] => none
  | a :: l => if p a then some 0 else (firstIdxWhere p l).map (· + 1)

/-- The outcome record of `fetchTopicAndUrl` (topic cell, url cell, 1-based
spreadsheet row). -/
structure TargetRow where
  topic : String
  url : String
  row : Nat
deriving DecidableEq, Repr

/-- The failure cases of `fetchTopicAndUrl` (each is a thrown `Error` in
the source; the spec's `MissingColumn` covers the two missing-column
variants). -/
inductive LocateError where
  | MissingTopicColumn
  | MissingTitleColumn
  | EmptyTopic
  | NoPendingRows
deriving DecidableEq, Repr

instance {ε α : Type} [DecidableEq ε] [DecidableEq α] : DecidableEq (Except ε α) :=
  fun a b =>
    match a, b with
    | .error e, .error f =>
      if h : e = f then isTrue (congrArg Except.error h)
      else isFalse (fun hc => h (Except.error.inj hc))
    | .ok x, .ok y =>
      if h : x = y then isTrue (congrArg Except.ok h)
      else isFalse (fun hc => h (Except.ok.inj hc))
    | .error _, .ok _ => isFalse (fun hc => Except.noConfusion hc)
    | .ok _, .error _ => isFalse (fun hc => Except.noConfusion hc)

/-- JS truthiness of the optional `row` argument (`if (row)`): present and
nonzero. -/
def rowTruthy : Option Nat → Bool
  | some r => decide (r ≠ 0)
  | none => false

/-- Cell access `values[i]` with JS `undefined` read as the empty string
(every blank-test in the source treats them alike). -/
def cellAt (r : List String) (i : Nat) : String := r.getD i ""

/-- The 1-based sheet row fetched by the manual branch's `row:row` range:
row 1 is the header row, data rows follow. -/
def sheetRowAt (headers : List String) (dataRows : List (List String)) (r : Nat) :
    List String :=
  (headers :: dataRows).getD (r - 1) []

/-- The auto-find loop of `fetchTopicAndUrl`: scan data rows in order; a row
is pending iff its topic cell is non-blank and its title cell is blank;
return the first pending row at spreadsheet index `i + 2`. -/
def autoScan (topicIdx titleIdx : Nat) (urlIdx : Option Nat) :
    List (List String) → Nat → Except LocateError TargetRow
  | [], _ => .error .NoPendingRows
  | r :: rest, i =>
    let topic := cellAt r topicIdx
    let title := cellAt r titleIdx
    let hasTopic := !(decide (jsTrim topic = ""))
    let isTitleEmpty := decide (jsTrim title = "")
    if hasTopic && isTitleEmpty then
      let url := match urlIdx with
        | some u => cellAt r u
        | none => ""
      .ok ⟨topic, url, i + 2⟩
    else autoScan topicIdx titleIdx urlIdx rest (i + 1)

/-- The row-selection core of `fetchTopicAndUrl`, as a pure function of the
fetched header row, the fetched data rows (`A2:ZZ`), and the optional
explicit row number.  Manual mode reads the `row:row` range (1-based; row 1
is the header row) and fails on a blank topic cell; auto mode requires a
title column and scans for the first pending row. -/
def locate (headers : List String) (dataRows : List (List String))
    (explicitRow : Option Nat) : Except LocateError TargetRow :=
  match firstIdxWhere isTopicHeader headers with
  | none => .error .MissingTopicColumn
  | some topicIdx =>
    if rowTruthy explicitRow then
      if jsTrim (cellAt (sheetRowAt headers dataRows (explicitRow.getD 0)) topicIdx) = ""
      then .error .EmptyTopic
      else .ok ⟨cellAt (sheetRowAt headers dataRows (explicitRow.getD 0)) topicIdx,
        (match firstIdxWhere isUrlHeader headers with
         | some u => cellAt (sheetRowAt headers dataRows (explicitRow.getD 0)) u
         | none => ""), explicitRow.getD 0⟩
    else
      match firstIdxWhere isTitleHeader headers with
      | none => .error .MissingTitleColumn
      | some ti => autoScan topicIdx ti (firstIdxWhere isUrlHeader headers) dataRows 0

/-- The claim's "pending" predicate, stated directly: topic cell non-blank
and title cell blank (absent, empty, or whitespace-only). -/
def isPendingRow (topicIdx titleIdx : Nat) (r : List String) : Bool :=
  !(decide (jsTrim (cellAt r topicIdx) = "")) && decide (jsTrim (cellAt r titleIdx) = "")

theorem autoScan_spec (topicIdx titleIdx : Nat) (urlIdx : Option Nat) :
    ∀ (rows : List (List String)) (k : Nat),
      autoScan topicIdx titleIdx urlIdx rows k =
        match firstIdxWhere (isPendingRow topicIdx titleIdx) rows with
        | some i => .ok ⟨cellAt (rows.getD i []) topicIdx,
            (match urlIdx with
             | some u => cellAt (rows.getD i []) u
             | none => ""), k + i + 2⟩
        | none => .error .NoPendingRows := by
  intro rows
  induction rows with
  | nil => intro k; rfl
  | cons r rest ih =>
    intro k
    simp only [autoScan, firstIdxWhere, isPendingRow]
    by_cases hp : (!(decide (jsTrim (cellAt r topicIdx) = "")) &&
        decide (jsTrim (cellAt r titleIdx) = "")) = true
    · rw [if_pos hp, if_pos hp]
      simp
    · rw [if_neg hp, if_neg hp]
      rw [ih (k + 1)]
      cases hfi : firstIdxWhere (isPendingRow topicIdx titleIdx) rest with
      | none => simp
      | some i =>
        simp only [Option.map_some]
        have : k + 1 + i + 2 = k + (i + 1) + 2 := by omega
        rw [this]
        rfl

/-- C1: in auto mode (no explicit row), for every header row resolving both
a topic and a title column, `locate` returns the first data row with a
non-blank topic cell and a blank title cell at spreadsheet index equal to
its 0-based position plus 2 (with that row's topic and url cells), and
fails with `NoPendingRows` when no such row exists. -/
theorem locate_auto_first_pending (headers : List String)
    (dataRows : List (List String)) (topicIdx titleIdx : Nat)
    (ht : firstIdxWhere isTopicHeader headers = some topicIdx)
    (hl : firstIdxWhere isTitleHeader headers = some titleIdx) :
    locate headers dataRows none =
      match firstIdxWhere (isPendingRow topicIdx titleIdx) dataRows with
      | some i => .ok ⟨cellAt (dataRows.getD i []) topicIdx,
          (match firstIdxWhere isUrlHeader headers with
           | some u => cellAt (dataRows.getD i []) u
           | none => ""), i + 2⟩
      | none => .error .NoPendingRows := by
  unfold locate
  rw [ht]
  simp only [rowTruthy, Bool.false_eq_true, if_false, hl]
  rw [autoScan_spec]
  cases hfi : firstIdxWhere (isPendingRow topicIdx titleIdx) dataRows with
  | none => rfl
  | some i => simp

/-- Closed instance of C1 at the spec's example: data rows
`[("A","X"), ("B",""), ("C","")]` under topic/title headers select the
second data row at spreadsheet row 3. -/
theorem locate_auto_first_pending_witness :
    firstIdxWhere isTopicHeader ["Topic", "Title"] = some 0 ∧
    firstIdxWhere isTitleHeader ["Topic", "Title"] = some 1 ∧
    locate ["Topic", "Title"] [["A", "X"], ["B", ""], ["C", ""]] none =
      .ok ⟨"B", "", 3⟩ := by
  refine ⟨by decide, by decide, ?_⟩
  rw [locate_auto_first_pending ["Topic", "Title"] [["A", "X"], ["B", ""], ["C", ""]]
        0 1 (by decide) (by decide)]
  decide

theorem autoScan_ok_or_noPending (topicIdx titleIdx : Nat) (urlIdx : Option Nat)
    (rows : List (List String)) (k : Nat) :
    (∃ t, autoScan topicIdx titleIdx urlIdx rows k = .ok t) ∨
    autoScan topicIdx titleIdx urlIdx rows k = .error .NoPendingRows := by
  rw [autoScan_spec]
  cases firstIdxWhere (isPendingRow topicIdx titleIdx) rows with
  | none => right; rfl
  | some i => left; exact ⟨_, rfl⟩

/-- C5: for every explicit row that is a genuine 1-based row number,
`locate` fails with a missing-column error iff the topic column is absent or
no explicit row is supplied and the title column is absent; given a topic
column, it fails with `EmptyTopic` iff an explicit row is supplied whose
topic cell is blank or whitespace-only; and in explicit mode with a
non-blank topic it returns that row's index, topic cell and url cell (or
the empty string when no url column resolves). -/
theorem locate_error_contract (headers : List String)
    (dataRows : List (List String)) (expl : Option Nat)
    (hexpl : ∀ r, expl = some r → 1 ≤ r) :
    ((locate headers dataRows expl = .error .MissingTopicColumn ∨
      locate headers dataRows expl = .error .MissingTitleColumn) ↔
     (firstIdxWhere isTopicHeader headers = none ∨
      (expl = none ∧ firstIdxWhere isTitleHeader headers = none))) ∧
    (∀ ti, firstIdxWhere isTopicHeader headers = some ti →
      ((locate headers dataRows expl = .error .EmptyTopic) ↔
        (∃ r, expl = some r ∧
          jsTrim (cellAt (sheetRowAt headers dataRows r) ti) = "")) ∧
      (∀ r, expl = some r →
        jsTrim (cellAt (sheetRowAt headers dataRows r) ti) ≠ "" →
        locate headers dataRows expl =
          .ok ⟨cellAt (sheetRowAt headers dataRows r) ti,
               (match firstIdxWhere isUrlHeader headers with
                | some u => cellAt (sheetRowAt headers dataRows r) u
                | none => ""), r⟩)) := by
  cases hti : firstIdxWhere isTopicHeader headers with
  | none =>
    have hloc : locate headers dataRows expl = .error .MissingTopicColumn := by
      unfold locate
      rw [hti]
    refine ⟨?_, ?_⟩
    · rw [hloc]
      simp
    · intro ti h
      exact absurd h (by simp)
  | some ti0 =>
    cases expl with
    | none =>
      have hnt : rowTruthy none = false := rfl
      cases htl : firstIdxWhere isTitleHeader headers with
      | none =>
        have hloc : locate headers dataRows none = .error .MissingTitleColumn := by
          unfold locate
          rw [hti, hnt]
          simp only [Bool.false_eq_true, if_false, htl]
        refine ⟨?_, ?_⟩
        · rw [hloc]
          simp
        · intro ti h
          have hti0 : ti0 = ti := by injection h
          subst hti0
          refine ⟨?_, ?_⟩
          · rw [hloc]
            simp
          · intro r hr
            simp at hr
      | some li =>
        have hloc : locate headers dataRows none =
            autoScan ti0 li (firstIdxWhere isUrlHeader headers) dataRows 0 := by
          unfold locate
          rw [hti, hnt]
          simp only [Bool.false_eq_true, if_false, htl]
        have hcases := autoScan_ok_or_noPending ti0 li
          (firstIdxWhere isUrlHeader headers) dataRows 0
        refine ⟨?_, ?_⟩
        · rw [hloc]
          constructor
          · intro h
            rcases hcases with ⟨t, ht⟩ | ht <;> rcases h with h | h <;>
              rw [ht] at h <;> exact absurd h (by simp)
          · intro h
            rcases h with h | h
            · exact absurd h (by simp)
            · exact absurd h.2 (by simp)
        · intro ti h
          have hti0 : ti0 = ti := by injection h
          subst hti0
          refine ⟨?_, ?_⟩
          · rw [hloc]
            constructor
            · intro h
              rcases hcases with ⟨t, ht⟩ | ht <;> rw [ht] at h <;>
                exact absurd h (by simp)
            · rintro ⟨r, hr, -⟩
              simp at hr
          · intro r hr
            simp at hr
    | some r =>
      have hr1 : 1 ≤ r := hexpl r rfl
      have htr : rowTruthy (some r) = true := by
        simp only [rowTruthy, decide_eq_true_eq]
        omega
      by_cases hblank : jsTrim (cellAt (sheetRowAt headers dataRows r) ti0) = ""
      · have hloc : locate headers dataRows (some r) = .error .EmptyTopic := by
          unfold locate
          rw [hti]
          simp only [htr, if_true, Option.getD_some]
          rw [if_pos hblank]
        refine ⟨?_, ?_⟩
        · rw [hloc]
          constructor
          · intro h
            rcases h with h | h <;> exact absurd h (by simp)
          · intro h
            rcases h with h | h
            · exact absurd h (by simp)
            · exact absurd h.1 (by simp)
        · intro ti h
          have hti0 : ti0 = ti := by injection h
          subst hti0
          refine ⟨?_, ?_⟩
          · rw [hloc]
            constructor
            · intro _
              exact ⟨r, rfl, hblank⟩
            · intro _
              rfl
          · intro r' hr' hne
            have : r = r' := by injection hr'
            subst this
            exact absurd hblank hne
      · have hloc : locate headers dataRows (some r) =
            .ok ⟨cellAt (sheetRowAt headers dataRows r) ti0,
                 (match firstIdxWhere isUrlHeader headers with
                  | some u => cellAt (sheetRowAt headers dataRows r) u
                  | none => ""), r⟩ := by
          unfold locate
          rw [hti]
          simp only [htr, if_true, Option.getD_some]
          rw [if_neg hblank]
        refine ⟨?_, ?_⟩
        · rw [hloc]
          constructor
          · intro h
            rcases h with h | h <;> exact absurd h (by simp)
          · intro h
            rcases h with h | h
            · exact absurd h (by simp)
            · exact absurd h.1 (by simp)
        · intro ti h
          have hti0 : ti0 = ti := by injection h
          subst hti0
          refine ⟨?_, ?_⟩
          · rw [hloc]
            constructor
            · intro h
              exact absurd h (by simp)
            · rintro ⟨r', hr', hbl⟩
              have : r = r' := by injection hr'
              subst this
              exact absurd hbl hblank
          · intro r' hr' hne
            have : r = r' := by injection hr'
            subst this
            exact hloc

/-- Closed instance of C5: headers `["Title", "URL"]` lack a topic column,
so `locate` fails with the missing-column error; and an explicit row 2 with
a whitespace-only topic cell under a topic header fails with `EmptyTopic`. -/
theorem locate_error_contract_witness :
    (locate ["Title", "URL"] [["x", "y"]] none = .error .MissingTopicColumn ∨
     locate ["Title", "URL"] [["x", "y"]] none = .error .MissingTitleColumn) ∧
    locate ["Topic"] [["   "]] (some 2) = .error .EmptyTopic := by
  constructor
  · exact (locate_error_contract ["Title", "URL"] [["x", "y"]] none
      (by intro r h; simp at h)).1.mpr (Or.inl (by decide))
  · exact (((locate_error_contract ["Topic"] [["   "]] (some 2)
      (by intro r h; injection h; omega)).2 0 (by decide)).1).mpr
      ⟨2, rfl, by decide⟩

/-- The generated-content record (`SeoResult` in the source's types). -/
structure SeoResult where
  primaryKeyword : String
  keywordDifficulty : Nat
  seoTitle : String
  secondaryKeywords : List String
  metaDescription : String
  tags : List String
  category : List String
deriving DecidableEq, Repr

/-- The `keyMap` object of `writeSeoToSheet`, in source order: header name
to semantic write-target field. -/
def keyMap : List (String × String) :=
  [("Primary Keyword", "primaryKeyword"),
   ("Target KeyWord", "primaryKeyword"),
   ("Keyword", "primaryKeyword"),
   ("Topic", "primaryKeyword"),
   ("Search Query", "primaryKeyword"),
   ("Main Keyword", "primaryKeyword"),
   ("SEO Title", "seoTitle"),
   ("Title", "seoTitle"),
   ("Page Title", "seoTitle"),
   ("Meta Title", "seoTitle"),
   ("Headline", "seoTitle"),
   ("Meta Description", "metaDescription"),
   ("Description", "metaDescription"),
   ("Meta", "metaDescription"),
   ("Secondary Keywords", "secondaryKeywords"),
   ("Keywords", "secondaryKeywords"),
   ("LSI", "secondaryKeywords"),
   ("LSI Keywords", "secondaryKeywords"),
   ("Tags", "tags"),
   ("Content Tags", "tags"),
   ("Category", "category"),
   ("Categories", "category"),
   ("Niche", "category")]

/-- `Object.keys(keyMap).find(k => k.toLowerCase() === cleanHeader)`,
followed by the value lookup `keyMap[matchedKey]`. -/
def lookupKeyMap (clean : String) : Option String :=
  (keyMap.find? (fun p => lowerStr p.1 = clean)).map (fun p => p.2)

/-- JS object assignment `columnMapping[field] = letter` on an
insertion-ordered string-keyed object: replace in place when the key
exists, else append. -/
def upsert (m : List (String × String)) (k v : String) : List (String × String) :=
  if m.any (fun p => p.1 = k) then
    m.map (fun p => if p.1 = k then (k, v) else p)
  else m ++ [(k, v)]

/-- The `headers.forEach((header, index) => ...)` loop building
`columnMapping`: skip empty headers, look the trimmed lowercased header up
in `keyMap`, and assign the column letter for the current index (later
matches overwrite earlier ones). -/
def buildColumnMappingAux : List String → Nat → List (String × String) → List (String × String)
  | [], _, m => m
  | h :: rest, i, m =>
    buildColumnMappingAux rest (i + 1)
      (if h = "" then m
       else
         match lookupKeyMap (lowerStr (jsTrim h)) with
         | some field => upsert m field (getColumnLetter i)
         | none => m)

/-- `columnMapping` as computed from the fetched header row. -/
def buildColumnMapping (headers : List String) : List (String × String) :=
  buildColumnMappingAux headers 0 []

/-- The `dataMap` of `writeSeoToSheet`: scalar representation per field,
array fields joined with `", "` in their given order. -/
def dataMapVal (d : SeoResult) : String → String
  | "primaryKeyword" => d.primaryKeyword
  | "seoTitle" => d.seoTitle
  | "metaDescription" => d.metaDescription
  | "secondaryKeywords" => String.intercalate ", " d.secondaryKeywords
  | "tags" => String.intercalate ", " d.tags
  | "category" => String.intercalate ", " d.category
  | _ => ""

/-- The write issued by `writeSeoToSheet`: either a batch of single-cell
updates (mapped mode, one per `columnMapping` entry in insertion order) or
one PUT of a contiguous `B..F` row range (fallback mode). -/
inductive SheetWrite where
  | batch (entries : List (String × String))
  | fallbackRange (range : String) (values : List String)
deriving DecidableEq, Repr

/-- The write planner of `writeSeoToSheet` as a pure function of the header
row: fallback exactly when `columnMapping` is empty. -/
def writeSeoPlan (sheetName : String) (row : Nat) (data : SeoResult)
    (headers : List String) : SheetWrite :=
  if (buildColumnMapping headers).isEmpty then
    SheetWrite.fallbackRange
      (sheetName ++ "!B" ++ toString row ++ ":F" ++ toString row)
      [data.primaryKeyword, data.seoTitle,
       String.intercalate ", " data.secondaryKeywords,
       data.metaDescription,
       String.intercalate ", " data.tags]
  else
    SheetWrite.batch ((buildColumnMapping headers).map
      (fun p => (sheetName ++ "!" ++ p.2 ++ toString row, dataMapVal data p.1)))

/-- The key list of an insertion-ordered object. -/
def keysOf (m : List (String × String)) : List String := m.map Prod.fst

theorem keysOf_upsert_of_mem {m : List (String × String)} {k v : String}
    (h : m.any (fun p => p.1 = k) = true) :
    keysOf (upsert m k v) = keysOf m := by
  unfold upsert keysOf
  rw [if_pos h, List.map_map]
  apply List.map_congr_left
  intro p _
  by_cases hp : p.1 = k
  · simp [hp]
  · simp [hp]

theorem keysOf_upsert_of_not_mem {m : List (String × String)} {k v : String}
    (h : m.any (fun p => p.1 = k) = false) :
    keysOf (upsert m k v) = keysOf m ++ [k] := by
  unfold upsert keysOf
  rw [if_neg (by rw [h]; simp)]
  simp

theorem keysOf_upsert_nodup {m : List (String × String)} {k v : String}
    (h : (keysOf m).Nodup) : (keysOf (upsert m k v)).Nodup := by
  cases hmem : m.any (fun p => p.1 = k) with
  | true => rw [keysOf_upsert_of_mem hmem]; exact h
  | false =>
    rw [keysOf_upsert_of_not_mem hmem]
    refine h.append (List.nodup_singleton k) ?_
    intro x hx hk
    simp only [List.mem_singleton] at hk
    subst hk
    obtain ⟨p, hp, hpk⟩ := List.mem_map.mp hx
    rw [List.any_eq_false] at hmem
    exact hmem p hp (by simp [hpk])

theorem key_mem_upsert {m : List (String × String)} {k v f : String} :
    f ∈ keysOf (upsert m k v) ↔ f = k ∨ f ∈ keysOf m := by
  cases hmem : m.any (fun p => p.1 = k) with
  | true =>
    rw [keysOf_upsert_of_mem hmem]
    constructor
    · intro h
      exact Or.inr h
    · rintro (h | h)
      · subst h
        rw [List.any_eq_true] at hmem
        obtain ⟨p, hp, hpk⟩ := hmem
        exact List.mem_map.mpr ⟨p, hp, by simpa using hpk.symm⟩
      · exact h
  | false =>
    rw [keysOf_upsert_of_not_mem hmem]
    simp [or_comm]

theorem keysOf_buildAux_nodup :
    ∀ (headers : List String) (i : Nat) (m : List (String × String)),
      (keysOf m).Nodup → (keysOf (buildColumnMappingAux headers i m)).Nodup := by
  intro headers
  induction headers with
  | nil => intro i m h; exact h
  | cons hd rest ih =>
    intro i m h
    simp only [buildColumnMappingAux]
    apply ih
    by_cases hhd : hd = ""
    · rw [if_pos hhd]; exact h
    · rw [if_neg hhd]
      cases lookupKeyMap (lowerStr (jsTrim hd)) with
      | none => exact h
      | some field => exact keysOf_upsert_nodup h

/-- A header row textually matches a write-target field: some non-empty
header's trimmed lowercased text is a `keyMap` name for the field. -/
def matchedField (headers : List String) (f : String) : Prop :=
  ∃ h ∈ headers, h ≠ "" ∧ lookupKeyMap (lowerStr (jsTrim h)) = some f

theorem key_mem_buildAux :
    ∀ (headers : List String) (i : Nat) (m : List (String × String)) (f : String),
      f ∈ keysOf (buildColumnMappingAux headers i m) ↔
        f ∈ keysOf m ∨ matchedField headers f := by
  intro headers
  induction headers with
  | nil =>
    intro i m f
    simp [buildColumnMappingAux, matchedField]
  | cons hd rest ih =>
    intro i m f
    simp only [buildColumnMappingAux]
    rw [ih]
    have hmf : matchedField (hd :: rest) f ↔
        (hd ≠ "" ∧ lookupKeyMap (lowerStr (jsTrim hd)) = some f) ∨ matchedField rest f := by
      unfold matchedField
      constructor
      · rintro ⟨h, hmem, hne, hlk⟩
        rcases List.mem_cons.mp hmem with rfl | hmem'
        · exact Or.inl ⟨hne, hlk⟩
        · exact Or.inr ⟨h, hmem', hne, hlk⟩
      · rintro (⟨hne, hlk⟩ | ⟨h, hmem, hne, hlk⟩)
        · exact ⟨hd, List.mem_cons_self hd rest, hne, hlk⟩
        · exact ⟨h, List.mem_cons_of_mem hd hmem, hne, hlk⟩
    rw [hmf]
    by_cases hhd : hd = ""
    · rw [if_pos hhd]
      simp [hhd]
    · rw [if_neg hhd]
      cases hlk : lookupKeyMap (lowerStr (jsTrim hd)) with
      | none =>
        constructor
        · rintro (h | h)
          · exact Or.inl h
          · exact Or.inr (Or.inr h)
        · rintro (h | ⟨-, hsome⟩ | h)
          · exact Or.inl h
          · exact absurd hsome (by simp)
          · exact Or.inr h
      | some g =>
        rw [key_mem_upsert]
        constructor
        · rintro ((h | h) | h)
          · subst h
            exact Or.inr (Or.inl ⟨hhd, rfl⟩)
          · exact Or.inl h
          · exact Or.inr (Or.inr h)
        · rintro (h | ⟨-, hsome⟩ | h)
          · exact Or.inl (Or.inr h)
          · have hgf : g = f := by injection hsome
            exact Or.inl (Or.inl hgf.symm)
          · exact Or.inr h

/-- C2: when at least one write-target field matches a header, the planner
issues exactly one batch entry per entry of the column mapping — range
`<tab>!<letter><row>`, value the field's scalar representation (arrays
joined with `", "` in order) — with pairwise-distinct fields, the mapped
fields being exactly those some non-empty header resolves to; no fallback
entry is produced. -/
theorem writeSeoPlan_mapped (tab : String) (row : Nat) (data : SeoResult)
    (headers : List String) (hne : buildColumnMapping headers ≠ []) :
    writeSeoPlan tab row data headers =
      SheetWrite.batch ((buildColumnMapping headers).map
        (fun p => (tab ++ "!" ++ p.2 ++ toString row, dataMapVal data p.1))) ∧
    (keysOf (buildColumnMapping headers)).Nodup ∧
    (∀ f, f ∈ keysOf (buildColumnMapping headers) ↔ matchedField headers f) ∧
    dataMapVal data "secondaryKeywords" = String.intercalate ", " data.secondaryKeywords ∧
    dataMapVal data "tags" = String.intercalate ", " data.tags ∧
    dataMapVal data "category" = String.intercalate ", " data.category := by
  refine ⟨?_, ?_, ?_, rfl, rfl, rfl⟩
  · unfold writeSeoPlan
    rw [if_neg (by rwa [ne_eq, ← List.isEmpty_iff] at hne)]
  · exact keysOf_buildAux_nodup headers 0 [] (by simp [keysOf])
  · intro f
    unfold buildColumnMapping
    rw [key_mem_buildAux]
    simp [keysOf]

/-- Closed instance of C2 at the spec's example shape: primaryKeyword at
column index 2 and tags at index 5, target row 3, two entries at `C3` and
`F3`, in mapping order. -/
theorem writeSeoPlan_mapped_witness :
    buildColumnMapping ["foo", "bar", "Primary Keyword", "baz", "qux", "Tags"] ≠ [] ∧
    writeSeoPlan "S" 3 ⟨"k", 0, "t", ["a", "b"], "d", ["x", "y"], []⟩
        ["foo", "bar", "Primary Keyword", "baz", "qux", "Tags"] =
      SheetWrite.batch [("S!C3", "k"), ("S!F3", "x, y")] := by
  constructor
  · decide
  · rw [(writeSeoPlan_mapped "S" 3 ⟨"k", 0, "t", ["a", "b"], "d", ["x", "y"], []⟩
      ["foo", "bar", "Primary Keyword", "baz", "qux", "Tags"] (by decide)).1]
    decide

/-- C3: when no write-target field matches any header, the planner issues
exactly one fallback entry covering `B..F` at the target row with the five
values primaryKeyword, seoTitle, joined secondaryKeywords, metaDescription,
joined tags in that order, and the plan is independent of the category
field. -/
theorem writeSeoPlan_fallback (tab : String) (row : Nat) (data : SeoResult)
    (headers : List String) (h : buildColumnMapping headers = []) :
    writeSeoPlan tab row data headers =
      SheetWrite.fallbackRange (tab ++ "!B" ++ toString row ++ ":F" ++ toString row)
        [data.primaryKeyword, data.seoTitle,
         String.intercalate ", " data.secondaryKeywords,
         data.metaDescription,
         String.intercalate ", " data.tags] ∧
    (∀ c : List String,
      writeSeoPlan tab row { data with category := c } headers =
        writeSeoPlan tab row data headers) := by
  have he : (buildColumnMapping headers).isEmpty = true := by
    rw [h]
    rfl
  constructor
  · unfold writeSeoPlan
    rw [if_pos he]
  · intro c
    unfold writeSeoPlan
    rw [if_pos he, if_pos he]

/-- Closed instance of C3 at the spec's example: no write-target header,
result fields `k`/`t`/`a, b`/`d`/`x`, target row 7, one entry `B7:F7`. -/
theorem writeSeoPlan_fallback_witness :
    buildColumnMapping ["Random Col"] = [] ∧
    writeSeoPlan "S" 7 ⟨"k", 0, "t", ["a", "b"], "d", ["x"], ["CAT"]⟩ ["Random Col"] =
      SheetWrite.fallbackRange "S!B7:F7" ["k", "t", "a, b", "d", "x"] := by
  constructor
  · decide
  · rw [(writeSeoPlan_fallback "S" 7 ⟨"k", 0, "t", ["a", "b"], "d", ["x"], ["CAT"]⟩
      ["Random Col"] (by decide)).1]
    decide

theorem buildAux_append :
    ∀ (l₁ l₂ : List String) (i : Nat) (m : List (String × String)),
      buildColumnMappingAux (l₁ ++ l₂) i m =
        buildColumnMappingAux l₂ (i + l₁.length) (buildColumnMappingAux l₁ i m) := by
  intro l₁
  induction l₁ with
  | nil =>
    intro l₂ i m
    simp [buildColumnMappingAux]
  | cons h t ih =>
    intro l₂ i m
    simp only [List.cons_append, buildColumnMappingAux, List.length_cons, List.append_eq]
    rw [ih]
    have : i + 1 + t.length = i + (t.length + 1) := by omega
    rw [this]

/-- A single header cell resolves to a write-target field: non-empty and
its trimmed lowercased text is a `keyMap` name for the field. -/
def headerMatchesField (h f : String) : Bool :=
  decide (h ≠ "") && decide (lookupKeyMap (lowerStr (jsTrim h)) = some f)

theorem mem_upsert_ne {m : List (String × String)} {k v f L : String}
    (hf : f ≠ k) : (f, L) ∈ upsert m k v ↔ (f, L) ∈ m := by
  unfold upsert
  by_cases hmem : m.any (fun p => p.1 = k) = true
  · rw [if_pos hmem]
    constructor
    · intro h
      obtain ⟨p, hp, hpe⟩ := List.mem_map.mp h
      by_cases hpk : p.1 = k
      · rw [if_pos hpk] at hpe
        exact absurd (congrArg Prod.fst hpe) (by simpa using fun he => hf he.symm)
      · rw [if_neg hpk] at hpe
        rw [← hpe]
        exact hp
    · intro h
      refine List.mem_map.mpr ⟨(f, L), h, ?_⟩
      rw [if_neg (by simpa using hf)]
  · rw [if_neg hmem]
    rw [List.mem_append]
    constructor
    · rintro (h | h)
      · exact h
      · simp only [List.mem_singleton, Prod.mk.injEq] at h
        exact absurd h.1 hf
    · intro h
      exact Or.inl h

theorem mem_upsert_self {m : List (String × String)} {k v L : String} :
    (k, L) ∈ upsert m k v ↔ L = v := by
  unfold upsert
  by_cases hmem : m.any (fun p => p.1 = k) = true
  · rw [if_pos hmem]
    constructor
    · intro h
      obtain ⟨p, hp, hpe⟩ := List.mem_map.mp h
      by_cases hpk : p.1 = k
      · rw [if_pos hpk] at hpe
        injection hpe with h1 h2
        exact h2.symm
      · rw [if_neg hpk] at hpe
        rw [hpe] at hpk
        exact absurd rfl hpk
    · intro h
      subst h
      rw [List.any_eq_true] at hmem
      obtain ⟨p, hp, hpk⟩ := hmem
      refine List.mem_map.mpr ⟨p, hp, ?_⟩
      rw [if_pos (by simpa using hpk)]
  · rw [if_neg hmem]
    rw [List.mem_append]
    constructor
    · rintro (h | h)
      · exfalso
        apply hmem
        rw [List.any_eq_true]
        exact ⟨(k, L), h, by simp⟩
      · simpa using h
    · intro h
      subst h
      exact Or.inr (by simp)

/-- The write-planner column resolution characterized declaratively: the
mapping binds a field to exactly the column letter of the **last** header
matching it. -/
theorem buildColumnMapping_mem_iff :
    ∀ (headers : List String) (f L : String),
      (f, L) ∈ buildColumnMapping headers ↔
        ∃ i, i < headers.length ∧
          headerMatchesField (headers.getD i "") f = true ∧
          L = getColumnLetter i ∧
          ∀ j, i < j → j < headers.length →
            headerMatchesField (headers.getD j "") f = false := by
  intro headers
  induction headers using List.reverseRecOn with
  | nil =>
    intro f L
    constructor
    · intro h
      simp [buildColumnMapping, buildColumnMappingAux] at h
    · rintro ⟨i, hi, -⟩
      simp at hi
  | append_singleton l h ih =>
    intro f L
    have hstep : buildColumnMapping (l ++ [h]) =
        (if h = "" then buildColumnMapping l
         else
           match lookupKeyMap (lowerStr (jsTrim h)) with
           | some field => upsert (buildColumnMapping l) field (getColumnLetter l.length)
           | none => buildColumnMapping l) := by
      unfold buildColumnMapping
      rw [buildAux_append]
      simp [buildColumnMappingAux]
    have hgetD_last : (l ++ [h]).getD l.length "" = h := by
      rw [List.getD_append_right l [h] "" l.length (le_refl _)]
      simp
    by_cases hm : headerMatchesField h f = true
    · have hm' := hm
      unfold headerMatchesField at hm'
      rw [Bool.and_eq_true, decide_eq_true_eq, decide_eq_true_eq] at hm'
      rw [hstep, if_neg hm'.1, hm'.2]
      rw [mem_upsert_self]
      constructor
      · intro hL
        refine ⟨l.length, by simp, by rwa [hgetD_last], hL, ?_⟩
        intro j hj1 hj2
        simp at hj2
        omega
      · rintro ⟨i, hi, hmi, hL, hlast⟩
        simp only [List.length_append, List.length_singleton] at hi
        by_cases hieq : i = l.length
        · rwa [hieq] at hL
        · have hil : i < l.length := by omega
          have := hlast l.length (by omega) (by simp)
          rw [hgetD_last] at this
          rw [this] at hm
          exact absurd hm (by simp)
    · have hmem_step : (f, L) ∈ buildColumnMapping (l ++ [h]) ↔ (f, L) ∈ buildColumnMapping l := by
        rw [hstep]
        by_cases hh : h = ""
        · rw [if_pos hh]
        · rw [if_neg hh]
          cases hlk : lookupKeyMap (lowerStr (jsTrim h)) with
          | none => rfl
          | some g =>
            have hfg : f ≠ g := by
              intro he
              subst he
              apply hm
              unfold headerMatchesField
              rw [Bool.and_eq_true, decide_eq_true_eq, decide_eq_true_eq]
              exact ⟨hh, hlk⟩
            exact mem_upsert_ne hfg
      rw [hmem_step, ih f L]
      constructor
      · rintro ⟨i, hi, hmi, hL, hlast⟩
        refine ⟨i, by simp; omega, ?_, hL, ?_⟩
        · rwa [List.getD_append l [h] "" i hi]
        · intro j hj1 hj2
          simp only [List.length_append, List.length_singleton] at hj2
          by_cases hjl : j < l.length
          · rw [List.getD_append l [h] "" j hjl]
            exact hlast j hj1 hjl
          · have : j = l.length := by omega
            subst this
            rw [hgetD_last]
            simpa using hm
      · rintro ⟨i, hi, hmi, hL, hlast⟩
        simp only [List.length_append, List.length_singleton] at hi
        have hil : i < l.length := by
          by_contra hcon
          have : i = l.length := by omega
          subst this
          rw [hgetD_last] at hmi
          exact hm hmi
        refine ⟨i, hil, ?_, hL, ?_⟩
        · rwa [List.getD_append l [h] "" i hil] at hmi
        · intro j hj1 hj2
          have := hlast j hj1 (by simp; omega)
          rwa [List.getD_append l [h] "" j hj2] at this

theorem firstIdxWhere_spec {α : Type} (p : α → Bool) :
    ∀ (l : List α) (i : Nat), firstIdxWhere p l = some i →
      ∃ a, l[i]? = some a ∧ p a = true ∧
        ∀ j b, j < i → l[j]? = some b → p b = false := by
  intro l
  induction l with
  | nil => intro i h; simp [firstIdxWhere] at h
  | cons a t ih =>
    intro i h
    simp only [firstIdxWhere] at h
    by_cases hp : p a = true
    · rw [if_pos hp] at h
      have h0 : i = 0 := by
        injection h with h'
        exact h'.symm
      subst h0
      exact ⟨a, by simp, hp, fun j b hj _ => absurd hj (by omega)⟩
    · rw [if_neg hp] at h
      cases hfi : firstIdxWhere p t with
      | none =>
        rw [hfi] at h
        exact absurd h (by simp)
      | some i' =>
        rw [hfi] at h
        have h' : i' + 1 = i := by simpa using h
        obtain ⟨b, hb, hpb, hprev⟩ := ih i' hfi
        subst h'
        refine ⟨b, by simpa using hb, hpb, ?_⟩
        intro j c hj hc
        cases j with
        | zero =>
          simp only [List.getElem?_cons_zero, Option.some.injEq] at hc
          subst hc
          simpa using hp
        | succ j' =>
          simp only [List.getElem?_cons_succ] at hc
          exact hprev j' c (by omega) hc

/-- C4, counterexample: header resolution does not select the first
matching column for write-target fields.  Both `"Keyword"` (column 0) and
`"Topic"` (column 1) are accepted names for `primaryKeyword`, yet the write
planner resolves `primaryKeyword` to column letter `B` (index 1), not the
leftmost match `A` (index 0): the `forEach` loop overwrites earlier
assignments. -/
theorem headerResolution_counterexample :
    headerMatchesField "Keyword" "primaryKeyword" = true ∧
    headerMatchesField "Topic" "primaryKeyword" = true ∧
    buildColumnMapping ["Keyword", "Topic"] = [("primaryKeyword", getColumnLetter 1)] ∧
    getColumnLetter 1 ≠ getColumnLetter 0 := by
  refine ⟨by decide, by decide, by decide, by decide⟩

/-- C4, amended: the **read** fields (topic, sourceUrl, title) each resolve
to the first (leftmost) column whose trimmed case-insensitive text is in
the field's accepted synonym set — in particular the example headers
resolve to topic→0, sourceUrl→1, title→2 — while every **write-target**
field resolves to the **last** matching column (later `forEach` matches
overwrite earlier ones). -/
theorem headerResolution_amended :
    (firstIdxWhere isTopicHeader ["  TOPIC ", "Source URL", "SEO Title"] = some 0 ∧
     firstIdxWhere isUrlHeader ["  TOPIC ", "Source URL", "SEO Title"] = some 1 ∧
     firstIdxWhere isTitleHeader ["  TOPIC ", "Source URL", "SEO Title"] = some 2) ∧
    (∀ (p : String → Bool) (headers : List String) (i : Nat),
       firstIdxWhere p headers = some i →
         ∃ h, headers[i]? = some h ∧ p h = true ∧
           ∀ j h', j < i → headers[j]? = some h' → p h' = false) ∧
    (∀ (headers : List String) (f L : String),
       (f, L) ∈ buildColumnMapping headers ↔
         ∃ i, i < headers.length ∧
           headerMatchesField (headers.getD i "") f = true ∧
           L = getColumnLetter i ∧
           ∀ j, i < j → j < headers.length →
             headerMatchesField (headers.getD j "") f = false) :=
  ⟨⟨by decide, by decide, by decide⟩,
   fun p headers i h => firstIdxWhere_spec p headers i h,
   buildColumnMapping_mem_iff⟩

/-- Closed instance of the amended C4: the write planner's mapping for
`["Keyword", "Topic"]` binds `primaryKeyword` to the letter of the last
matching index 1. -/
theorem headerResolution_amended_witness :
    ("primaryKeyword", getColumnLetter 1) ∈ buildColumnMapping ["Keyword", "Topic"] :=
  (headerResolution_amended.2.2 ["Keyword", "Topic"] "primaryKeyword"
    (getColumnLetter 1)).mpr
    ⟨1, by decide, by decide, rfl,
     by
       intro j hj1 hj2
       simp only [List.length_cons, List.length_nil] at hj2
       omega⟩

/-- C10, counterexample: with headers `["Topic", "Keyword"]` — where column
0's trimmed lowercase text is exactly `"topic"` — the mapped-mode plan
contains a single entry writing the primary keyword into column `B`
(the later `"Keyword"` match), and no entry targets column `A`, so the
claim's "an entry into that very column" fails for the Topic column. -/
theorem writeback_counterexample :
    lowerStr (jsTrim "Topic") = "topic" ∧
    writeSeoPlan "T" 5 ⟨"PK", 0, "TT", [], "MD", [], []⟩ ["Topic", "Keyword"] =
      SheetWrite.batch [("T!" ++ getColumnLetter 1 ++ toString 5, "PK")] ∧
    ("T!" ++ getColumnLetter 1 ++ toString 5 : String) ≠
      "T!" ++ getColumnLetter 0 ++ toString 5 := by
  refine ⟨by decide, by decide, by decide⟩

/-- C10, amended: for every header row in which some column matches the
`primaryKeyword` synonym set and `i` is the last such column, the
mapped-mode plan includes an entry writing the result's primaryKeyword into
column `i`; in particular when exactly one column matches — e.g. a lone
Topic or Keyword header — the write-back overwrites the very column the
topic was read from. -/
theorem writeback_amended (headers : List String) (tab : String) (row : Nat)
    (data : SeoResult) (i : Nat)
    (hi : i < headers.length)
    (hm : headerMatchesField (headers.getD i "") "primaryKeyword" = true)
    (hlast : ∀ j, i < j → j < headers.length →
        headerMatchesField (headers.getD j "") "primaryKeyword" = false) :
    ∃ entries, writeSeoPlan tab row data headers = SheetWrite.batch entries ∧
      (tab ++ "!" ++ getColumnLetter i ++ toString row, data.primaryKeyword) ∈ entries := by
  have hmem : ("primaryKeyword", getColumnLetter i) ∈ buildColumnMapping headers :=
    (buildColumnMapping_mem_iff headers "primaryKeyword" (getColumnLetter i)).mpr
      ⟨i, hi, hm, rfl, hlast⟩
  have hne : ¬ (buildColumnMapping headers).isEmpty = true := by
    intro he
    rw [List.isEmpty_iff] at he
    rw [he] at hmem
    exact absurd hmem (by simp)
  refine ⟨(buildColumnMapping headers).map
      (fun p => (tab ++ "!" ++ p.2 ++ toString row, dataMapVal data p.1)), ?_, ?_⟩
  · unfold writeSeoPlan
    rw [if_neg hne]
  · exact List.mem_map.mpr ⟨("primaryKeyword", getColumnLetter i), hmem, rfl⟩

/-- Closed instance of the amended C10: a lone `"Topic"` header receives
the primary keyword in its own column `A`. -/
theorem writeback_amended_witness :
    ∃ entries,
      writeSeoPlan "T" 2 ⟨"PK", 0, "TT", [], "MD", [], []⟩ ["Topic"] =
        SheetWrite.batch entries ∧
      ("T!" ++ getColumnLetter 0 ++ toString 2, "PK") ∈ entries :=
  writeback_amended ["Topic"] "T" 2 ⟨"PK", 0, "TT", [], "MD", [], []⟩ 0
    (by decide) (by decide)
    (by
      intro j hj1 hj2
      simp only [List.length_cons, List.length_nil] at hj2
      omega)

/-- The public template spreadsheet id (`DEFAULT_SPREADSHEET_ID` in the
source's constants). -/
def DEFAULT_SPREADSHEET_ID : String := "1zazLdp9CwH36SwwK__mAwYyU5idWgVuRWiIwFFbnidA"

/-- `handleGoogleApiError` from the source, as the pure message selection
on (status, context, parsed remote message, spreadsheet id): 401, 403 (with
the template-id special case), 404, then passthrough. -/
def handleGoogleApiError (status : Nat) (context message : String)
    (spreadsheetId : Option String) : String :=
  if status = 401 then
    context ++ ": Access Token expired or invalid. Please generate a new one."
  else if status = 403 then
    if spreadsheetId = some DEFAULT_SPREADSHEET_ID then
      context ++ ": Permission denied (403). You are trying to access the Read-Only Template. Please make a copy of the sheet and use YOUR Spreadsheet ID."
    else
      context ++ ": Permission denied (403). The Google Account used to generate the token does NOT have access to this Sheet. Please check your Spreadsheet Share permissions."
  else if status = 404 then
    context ++ ": Spreadsheet not found. Check the ID."
  else context ++ ": " ++ message

set_option maxRecDepth 8000 in
/-- C9: a 403 with the known public template id yields the template-specific
permission message; a 403 with any other id yields the generic permission
message; and the two message variants are distinguishable. -/
theorem permission403_template_distinguished (ctx msg id : String) :
    (id = DEFAULT_SPREADSHEET_ID →
      handleGoogleApiError 403 ctx msg (some id) =
        ctx ++ ": Permission denied (403). You are trying to access the Read-Only Template. Please make a copy of the sheet and use YOUR Spreadsheet ID.") ∧
    (id ≠ DEFAULT_SPREADSHEET_ID →
      handleGoogleApiError 403 ctx msg (some id) =
        ctx ++ ": Permission denied (403). The Google Account used to generate the token does NOT have access to this Sheet. Please check your Spreadsheet Share permissions.") ∧
    (ctx ++ ": Permission denied (403). You are trying to access the Read-Only Template. Please make a copy of the sheet and use YOUR Spreadsheet ID." ≠
     ctx ++ ": Permission denied (403). The Google Account used to generate the token does NOT have access to this Sheet. Please check your Spreadsheet Share permissions.") := by
  refine ⟨?_, ?_, ?_⟩
  · intro h
    subst h
    unfold handleGoogleApiError
    rfl
  · intro h
    unfold handleGoogleApiError
    rw [if_neg (by omega), if_pos rfl, if_neg (by simpa using h)]
  · intro h
    have := congrArg String.data h
    simp only [String.data_append] at this
    have h2 := List.append_cancel_left this
    exact absurd (congrArg List.length h2) (by decide)

/-- Closed instance of C9 at the template id and a distinct id. -/
theorem permission403_template_distinguished_witness :
    handleGoogleApiError 403 "Sheets API Error" "m" (some DEFAULT_SPREADSHEET_ID) =
      "Sheets API Error" ++ ": Permission denied (403). You are trying to access the Read-Only Template. Please make a copy of the sheet and use YOUR Spreadsheet ID." ∧
    handleGoogleApiError 403 "Sheets API Error" "m" (some "other-id") =
      "Sheets API Error" ++ ": Permission denied (403). The Google Account used to generate the token does NOT have access to this Sheet. Please check your Spreadsheet Share permissions." :=
  ⟨(permission403_template_distinguished "Sheets API Error" "m"
      DEFAULT_SPREADSHEET_ID).1 rfl,
   (permission403_template_distinguished "Sheets API Error" "m" "other-id").2.1
      (by decide)⟩

end SeoIntel
